import Mathlib

/-!
Shallow embedding of the windowed-metrics scanner of `xyalign/bam.py`
(`get_length` and `traverse_bam_fetch`) together with proofs of the
spec-derived claims about it.

Modelling choices:
* a pysam `AlignmentFile` is modelled by its observable interface: the
  declared reference names, their lengths, and a pure region `fetch`;
* an alignment record carries exactly the fields the scanner reads:
  `is_secondary`, `is_supplementary`, `infer_query_length` (an `Option`,
  since pysam may return `None`), and `mapping_quality`;
* Python true division on the metric values is modelled by `ℚ`;
  `np.mean` of an empty list (NaN) is modelled by `Option ℚ = none`;
* a Python exception (KeyError of the length lookup, TypeError of
  `total_read_length += None`) is modelled by an `Option` result:
  `none` means the call raised and no table was returned.
All definitions below are transcribed from the source; the only derived
definitions (`retainedReads`, `simpleBounds`, fixtures) are marked as such
and related to the transcribed ones by proved lemmas.
-/

/-- Record interface used by the scanner: the four attributes that
`traverse_bam_fetch` reads off each fetched pysam record. -/
structure AlignmentRecord where
  is_secondary : Bool
  is_supplementary : Bool
  infer_query_length : Option Nat
  mapping_quality : Nat
deriving DecidableEq

/-- File interface used by the scanner: declared reference names, declared
reference lengths, and a region-bounded fetch of records. -/
structure AlignmentFile where
  references : List String
  lengths : List Nat
  fetch : String → Nat → Nat → List AlignmentRecord

/-- Lookup in the dictionary built by `dict(zip(references, lengths))`:
for duplicate keys the later binding wins, exactly as for a Python dict
built from a list of pairs. `none` models the `KeyError`. -/
def dictLookup : List (String × Nat) → String → Option Nat
  | [], _ => none
  | (k, v) :: rest, chrom =>
    match dictLookup rest chrom with
    | some w => some w
    | none => if k = chrom then some v else none

/-- Transcription of `get_length` (bam.py lines 10-25):
`lengths = dict(zip(bamfile.references, bamfile.lengths))` followed by
`return lengths[chrom]`; `none` models the `KeyError` raised when `chrom`
is not a key. -/
def get_length (bamfile : AlignmentFile) (chrom : String) : Option Nat :=
  dictLookup (bamfile.references.zip bamfile.lengths) chrom

/-- Transcription of bam.py line 47: `num_windows = chr_len // window_size + 1`. -/
def num_windows (chr_len window_size : Nat) : Nat :=
  chr_len / window_size + 1

/-- Transcription of bam.py lines 48-51: the last window length is
`window_size` when `chr_len % num_windows == 0` and `chr_len % num_windows`
otherwise (remainder against the window count, as in the source). -/
def last_window_len (chr_len window_size : Nat) : Nat :=
  if chr_len % num_windows chr_len window_size = 0 then window_size
  else chr_len % num_windows chr_len window_size

/-- Transcription of the read filter and accumulator of bam.py lines 64-70:
walks the fetched records, skips records with `is_secondary` or
`is_supplementary` set, and sums `infer_query_length()` over the rest;
`none` models the `TypeError` raised by `total_read_length += None` when a
retained record has no inferred query length. -/
def totalReadLength : List AlignmentRecord → Option Nat
  | [] => some 0
  | r :: rs =>
    if r.is_secondary = false then
      if r.is_supplementary = false then
        match r.infer_query_length with
        | none => none
        | some q =>
          match totalReadLength rs with
          | none => none
          | some t => some (q + t)
      else totalReadLength rs
    else totalReadLength rs

/-- Transcription of the `mapq` list built by bam.py lines 64-70: the
mapping qualities of the retained (primary, non-supplementary) records,
in fetch order. -/
def mapqsOf : List AlignmentRecord → List Nat
  | [] => []
  | r :: rs =>
    if r.is_secondary = false then
      if r.is_supplementary = false then r.mapping_quality :: mapqsOf rs
      else mapqsOf rs
    else mapqsOf rs

/-- Transcription of `np.mean(np.asarray(mapq))` on bam.py line 74: the
arithmetic mean of the list, with `none` modelling the NaN produced on an
empty list. -/
def mapqMean (l : List Nat) : Option ℚ :=
  if l.isEmpty then none
  else some ((l.map fun (q : Nat) => (q : ℚ)).sum / (l.length : ℚ))

/-- One row of the `windows` data frame assembled on bam.py lines 89-95. -/
structure WindowRow where
  chrom : String
  start : Nat
  stop : Nat
  depth : ℚ
  mapq : Option ℚ
deriving DecidableEq

/-- Transcription of the window loop of bam.py lines 61-82. The first
`Nat` argument counts the remaining iterations of
`for window in range(0, num_windows)`; the next two are the running
`start` and `end`, and the last is `window_id`. Each iteration appends a
row carrying `depth = total_read_length / window_size` and the mean of the
retained mapping qualities, then advances `start` by `window_size` and
`end` by `window_size`, except that the transition at which the
post-increment `window_id` equals `num_windows - 1` advances `end` by
`last_window_len`. A `none` anywhere (the TypeError of line 69) aborts
the whole loop with no rows. -/
def windowLoop (samfile : AlignmentFile) (chrom : String)
    (window_size lwl nw : Nat) :
    Nat → Nat → Nat → Nat → Option (List WindowRow)
  | 0, _, _, _ => some []
  | Nat.succ k, start, stop, window_id =>
    match totalReadLength (samfile.fetch chrom start stop) with
    | none => none
    | some total =>
      match windowLoop samfile chrom window_size lwl nw k
          (start + window_size)
          (stop + (if window_id + 1 = nw - 1 then lwl else window_size))
          (window_id + 1) with
      | none => none
      | some rest =>
        some ({ chrom := chrom, start := start, stop := stop,
                depth := (total : ℚ) / (window_size : ℚ),
                mapq := mapqMean
                  (mapqsOf (samfile.fetch chrom start stop)) } :: rest)

/-- Transcription of `traverse_bam_fetch` (bam.py lines 28-98): resolve the
chromosome length, derive `num_windows` and `last_window_len`, and run the
window loop from `start = 0`, `end = window_size`, `window_id = 0`. The
returned list is the `windows` data frame, rows in loop (window) order;
`none` models an uncaught exception (unknown reference, or a record with
no inferred query length). -/
def traverse_bam_fetch (samfile : AlignmentFile) (chrom : String)
    (window_size : Nat) : Option (List WindowRow) :=
  match get_length samfile chrom with
  | none => none
  | some chr_len =>
    windowLoop samfile chrom window_size
      (last_window_len chr_len window_size)
      (num_windows chr_len window_size)
      (num_windows chr_len window_size) 0 window_size 0

/-- Derived vocabulary (not in the source, proven equivalent to the inline
filter of lines 66-68): the retained records of a fetched list. -/
def retainedReads (l : List AlignmentRecord) : List AlignmentRecord :=
  l.filter fun r => !r.is_secondary && !r.is_supplementary

/-- Derived description of the boundary pairs `(start, stop)` generated by
the window loop, with the special last-transition rule expressed through
the remaining-iteration count: with two iterations left the stop advances
by the last window length, otherwise by the window size. It is related to
`windowLoop` by `windowLoop_bounds`. -/
def simpleBounds (W lwl : Nat) : Nat → Nat → Nat → List (Nat × Nat)
  | 0, _, _ => []
  | 1, s, e => [(s, e)]
  | Nat.succ (Nat.succ k), s, e =>
    (s, e) :: simpleBounds W lwl (Nat.succ k) (s + W)
      (e + (if k = 0 then lwl else W))

/-- Fixture: the chromosome name of the spec's end-to-end example. -/
def chrX : String := "chrX"

/-- Fixture: a source with a single reference of length 1000 and no reads,
matching the spec's end-to-end example. -/
def exampleSource : AlignmentFile :=
  { references := [chrX], lengths := [1000], fetch := fun _ _ _ => [] }

/-- Fixture: the four rows produced by scanning `exampleSource` at window
size 300; the depth fields are written as the division terms the loop
builds (each equal to 0, as proved in `exampleRows_depth_zero`). -/
def exampleRows : List WindowRow :=
  [ { chrom := chrX, start := 0, stop := 300,
      depth := ((0 : Nat) : ℚ) / ((300 : Nat) : ℚ), mapq := none },
    { chrom := chrX, start := 300, stop := 600,
      depth := ((0 : Nat) : ℚ) / ((300 : Nat) : ℚ), mapq := none },
    { chrom := chrX, start := 600, stop := 900,
      depth := ((0 : Nat) : ℚ) / ((300 : Nat) : ℚ), mapq := none },
    { chrom := chrX, start := 900, stop := 1200,
      depth := ((0 : Nat) : ℚ) / ((300 : Nat) : ℚ), mapq := none } ]

example : traverse_bam_fetch exampleSource chrX 300 = some exampleRows := by
  rfl

example : ((0 : Nat) : ℚ) / ((300 : Nat) : ℚ) = 0 := by norm_num

/-! Lemmas relating the transcribed one-pass aggregation to the derived
`retainedReads` vocabulary. -/

/-- Retained-records list on a cons whose head passes the filter. -/
lemma retainedReads_cons_pos (r : AlignmentRecord) (rs : List AlignmentRecord)
    (h1 : r.is_secondary = false) (h2 : r.is_supplementary = false) :
    retainedReads (r :: rs) = r :: retainedReads rs := by
  simp [retainedReads, List.filter_cons, h1, h2]

/-- Retained-records list on a cons whose head is filtered out. -/
lemma retainedReads_cons_neg (r : AlignmentRecord) (rs : List AlignmentRecord)
    (h : r.is_secondary = true ∨ r.is_supplementary = true) :
    retainedReads (r :: rs) = retainedReads rs := by
  rcases h with h | h <;> simp [retainedReads, List.filter_cons, h]

/-- The mapq list collected by the loop is the mapping qualities of the
retained records. -/
lemma mapqsOf_eq_map (l : List AlignmentRecord) :
    mapqsOf l = (retainedReads l).map AlignmentRecord.mapping_quality := by
  induction l with
  | nil => rfl
  | cons r rs ih =>
    cases hsec : r.is_secondary
    case true =>
      rw [retainedReads_cons_neg r rs (Or.inl hsec)]
      simpa [mapqsOf, hsec] using ih
    case false =>
      cases hsup : r.is_supplementary
      case true =>
        rw [retainedReads_cons_neg r rs (Or.inr hsup)]
        simpa [mapqsOf, hsec, hsup] using ih
      case false =>
        rw [retainedReads_cons_pos r rs hsec hsup]
        simp [mapqsOf, hsec, hsup, List.map_cons, ih]

/-- The accumulated total raises (is `none`) exactly when some retained
record has no inferred query length. -/
lemma totalReadLength_eq_none (l : List AlignmentRecord) :
    totalReadLength l = none ↔
      ∃ r ∈ retainedReads l, r.infer_query_length = none := by
  induction l with
  | nil => simp [totalReadLength, retainedReads]
  | cons r rs ih =>
    cases hsec : r.is_secondary
    case true =>
      rw [retainedReads_cons_neg r rs (Or.inl hsec)]
      have hstep : totalReadLength (r :: rs) = totalReadLength rs := by
        simp [totalReadLength, hsec]
      rw [hstep]
      exact ih
    case false =>
      cases hsup : r.is_supplementary
      case true =>
        rw [retainedReads_cons_neg r rs (Or.inr hsup)]
        have hstep : totalReadLength (r :: rs) = totalReadLength rs := by
          simp [totalReadLength, hsec, hsup]
        rw [hstep]
        exact ih
      case false =>
        rw [retainedReads_cons_pos r rs hsec hsup]
        cases hq : r.infer_query_length with
        | none =>
          constructor
          · intro _
            exact ⟨r, List.mem_cons_self r _, hq⟩
          · intro _
            simp [totalReadLength, hsec, hsup, hq]
        | some q =>
          cases ht : totalReadLength rs with
          | none =>
            constructor
            · intro _
              obtain ⟨x, hx, hxn⟩ := ih.mp ht
              exact ⟨x, List.mem_cons_of_mem r hx, hxn⟩
            · intro _
              simp [totalReadLength, hsec, hsup, hq, ht]
          | some t =>
            constructor
            · intro hcontr
              exfalso
              simp [totalReadLength, hsec, hsup, hq, ht] at hcontr
            · rintro ⟨x, hx, hxn⟩
              rcases List.mem_cons.mp hx with rfl | hx'
              · rw [hq] at hxn
                exact Option.noConfusion hxn
              · have hrec := ih.mpr ⟨x, hx', hxn⟩
                rw [hrec] at ht
                exact Option.noConfusion ht

/-- On success the accumulated total is the sum of the inferred query
lengths of the retained records. -/
lemma totalReadLength_eq_sum (l : List AlignmentRecord) (t : Nat)
    (h : totalReadLength l = some t) :
    t = ((retainedReads l).map fun r => r.infer_query_length.getD 0).sum := by
  induction l generalizing t with
  | nil =>
    simp [totalReadLength] at h
    simp [retainedReads, ← h]
  | cons r rs ih =>
    cases hsec : r.is_secondary
    case true =>
      rw [retainedReads_cons_neg r rs (Or.inl hsec)]
      exact ih t (by simpa [totalReadLength, hsec] using h)
    case false =>
      cases hsup : r.is_supplementary
      case true =>
        rw [retainedReads_cons_neg r rs (Or.inr hsup)]
        exact ih t (by simpa [totalReadLength, hsec, hsup] using h)
      case false =>
        rw [retainedReads_cons_pos r rs hsec hsup]
        cases hq : r.infer_query_length with
        | none =>
          simp [totalReadLength, hsec, hsup, hq] at h
        | some q =>
          cases ht : totalReadLength rs with
          | none => simp [totalReadLength, hsec, hsup, hq, ht] at h
          | some t' =>
            have hth : q + t' = t := by
              simpa [totalReadLength, hsec, hsup, hq, ht] using h
            rw [List.map_cons, List.sum_cons, hq]
            rw [← ih t' ht, ← hth]
            rfl

/-- A list with no retained records accumulates a total of zero. -/
lemma totalReadLength_of_no_retained (l : List AlignmentRecord)
    (h : retainedReads l = []) : totalReadLength l = some 0 := by
  induction l with
  | nil => rfl
  | cons r rs ih =>
    cases hsec : r.is_secondary
    case true =>
      rw [retainedReads_cons_neg r rs (Or.inl hsec)] at h
      simpa [totalReadLength, hsec] using ih h
    case false =>
      cases hsup : r.is_supplementary
      case true =>
        rw [retainedReads_cons_neg r rs (Or.inr hsup)] at h
        simpa [totalReadLength, hsec, hsup] using ih h
      case false =>
        rw [retainedReads_cons_pos r rs hsec hsup] at h
        exact absurd h (List.cons_ne_nil r (retainedReads rs))

/-- Summing the rational casts of a constant list of naturals. -/
lemma sum_cast_const (Q : Nat) :
    ∀ l : List Nat, (∀ x ∈ l, x = Q) →
      (l.map fun (q : Nat) => (q : ℚ)).sum = (l.length : ℚ) * (Q : ℚ) := by
  intro l
  induction l with
  | nil => simp
  | cons x xs ih =>
    intro h
    have hx : x = Q := h x (List.mem_cons_self x xs)
    have ihs := ih (fun y hy => h y (List.mem_cons_of_mem x hy))
    subst hx
    rw [List.map_cons, List.sum_cons, ihs, List.length_cons]
    push_cast
    ring

/-- The mean of a nonempty constant list is the constant. -/
lemma mapqMean_const (l : List Nat) (Q : Nat) (h : ∀ x ∈ l, x = Q)
    (hne : l ≠ []) : mapqMean l = some ((Q : Nat) : ℚ) := by
  have hsum := sum_cast_const Q l h
  have hlen : ((l.length : Nat) : ℚ) ≠ 0 := by
    have hpos : 0 < l.length := List.length_pos.mpr hne
    exact_mod_cast Nat.pos_iff_ne_zero.mp hpos
  have hemp : l.isEmpty = false := by
    cases l with
    | nil => exact absurd rfl hne
    | cons a as => rfl
  rw [mapqMean, hemp]
  simp only [Bool.false_eq_true, if_false]
  rw [hsum, mul_comm, mul_div_assoc, div_self hlen, mul_one]

/-- Summing a constant function over a list. -/
lemma sum_map_const_nat {α : Type} (f : α → Nat) (c : Nat) :
    ∀ l : List α, (∀ x ∈ l, f x = c) → (l.map f).sum = l.length * c := by
  intro l
  induction l with
  | nil => simp
  | cons x xs ih =>
    intro h
    have hx : f x = c := h x (List.mem_cons_self x xs)
    rw [List.map_cons, List.sum_cons, hx,
      ih (fun y hy => h y (List.mem_cons_of_mem x hy)), List.length_cons]
    ring

/-! Lemmas about the derived boundary description `simpleBounds`. -/

/-- The boundary list has one pair per remaining iteration. -/
lemma simpleBounds_length (W lwl : Nat) :
    ∀ k s e, (simpleBounds W lwl k s e).length = k := by
  intro k
  induction k using Nat.strong_induction_on with
  | _ k ih =>
    rcases k with _ | _ | m
    · intro s e; rfl
    · intro s e; rfl
    · intro s e
      rw [simpleBounds, List.length_cons, ih (m + 1) (by omega)]

/-- Every window start is the initial start advanced by a multiple of the
window size. -/
lemma simpleBounds_get_fst (W lwl : Nat) :
    ∀ k s e j, j < k →
      ((simpleBounds W lwl k s e).get? j).map Prod.fst = some (s + j * W) := by
  intro k
  induction k using Nat.strong_induction_on with
  | _ k ih =>
    rcases k with _ | _ | m
    · intro s e j hj; omega
    · intro s e j hj
      have hj0 : j = 0 := by omega
      subst hj0
      simp [simpleBounds]
    · intro s e j hj
      rcases j with _ | j
      · simp [simpleBounds]
      · rw [simpleBounds, List.get?_cons_succ]
        rw [ih (m + 1) (by omega) (s + W) _ j (by omega)]
        congr 1
        ring

/-- Every window stop other than the final one is the initial stop
advanced by a multiple of the window size. -/
lemma simpleBounds_get_snd (W lwl : Nat) :
    ∀ k s e j, j + 1 < k →
      ((simpleBounds W lwl k s e).get? j).map Prod.snd = some (e + j * W) := by
  intro k
  induction k using Nat.strong_induction_on with
  | _ k ih =>
    rcases k with _ | _ | m
    · intro s e j hj; omega
    · intro s e j hj; omega
    · intro s e j hj
      rcases j with _ | j
      · simp [simpleBounds]
      · rcases m with _ | m'
        · omega
        · rw [simpleBounds, List.get?_cons_succ]
          have hm : ¬(m' + 1 = 0) := by omega
          rw [if_neg hm]
          rw [ih (m' + 2) (by omega) (s + W) (e + W) j (by omega)]
          congr 1
          ring

/-- The final window stop: the initial stop advanced by `k` window sizes
plus the last window length, for a run of `k + 2` windows. -/
lemma simpleBounds_last_snd (W lwl : Nat) :
    ∀ k s e, ((simpleBounds W lwl (k + 2) s e).get? (k + 1)).map Prod.snd =
      some (e + k * W + lwl) := by
  intro k
  induction k with
  | zero =>
    intro s e
    simp [simpleBounds]
  | succ k ih =>
    intro s e
    rw [simpleBounds, List.get?_cons_succ]
    have hm : ¬(k + 1 = 0) := by omega
    rw [if_neg hm]
    rw [ih (s + W) (e + W)]
    congr 1
    ring

/-- First element of a nonempty boundary list. -/
lemma simpleBounds_head (W lwl : Nat) :
    ∀ k s e, 0 < k → (simpleBounds W lwl k s e).head? = some (s, e) := by
  intro k
  rcases k with _ | _ | m
  · intro s e h; omega
  · intro s e _; rfl
  · intro s e _; rfl

/-- Consecutive boundary pairs are contiguous: each stop is the next
start, provided the initial stop is one window past the initial start. -/
lemma simpleBounds_chain (W lwl : Nat) :
    ∀ k s, List.Chain' (fun p q : Nat × Nat => p.2 = q.1)
      (simpleBounds W lwl k s (s + W)) := by
  intro k
  induction k using Nat.strong_induction_on with
  | _ k ih =>
    rcases k with _ | _ | m
    · intro s; exact List.chain'_nil
    · intro s; simp [simpleBounds]
    · intro s
      rw [simpleBounds]
      rw [List.chain'_cons']
      constructor
      · intro q hq
        rw [simpleBounds_head W lwl (m + 1) _ _ (by omega)] at hq
        cases hq
        rfl
      · rcases m with _ | m'
        · simp [simpleBounds]
        · have hm : ¬(m' + 1 = 0) := by omega
          rw [if_neg hm]
          exact ih (m' + 2) (by omega) (s + W)

/-- Total of the window spans over a run of `k + 2` windows. -/
lemma simpleBounds_sum_spans (W lwl : Nat) :
    ∀ k s, ((simpleBounds W lwl (k + 2) s (s + W)).map
        fun p : Nat × Nat => p.2 - p.1).sum = (k + 1) * W + lwl := by
  intro k
  induction k with
  | zero =>
    intro s
    have hunfold : simpleBounds W lwl (0 + 2) s (s + W) =
        [(s, s + W), (s + W, s + W + lwl)] := by
      rw [simpleBounds]
      simp [simpleBounds]
    rw [hunfold, List.map_cons, List.map_cons, List.map_nil,
      List.sum_cons, List.sum_cons, List.sum_nil]
    omega
  | succ k ih =>
    intro s
    rw [simpleBounds]
    have hm : ¬(k + 1 = 0) := by omega
    rw [if_neg hm]
    rw [List.map_cons, List.sum_cons]
    have harg : s + W + W = (s + W) + W := rfl
    rw [harg, ih (s + W)]
    have hmul : (k + 1 + 1) * W = (k + 1) * W + W := by ring
    omega

/-- Coverage: a position is inside some window of a `k + 2`-window run
exactly when it lies between the initial start and the final stop. -/
lemma simpleBounds_cover (W lwl : Nat) (hl : 0 < lwl) :
    ∀ k s x, (∃ p ∈ simpleBounds W lwl (k + 2) s (s + W),
        p.1 ≤ x ∧ x < p.2) ↔ (s ≤ x ∧ x < s + ((k + 1) * W + lwl)) := by
  intro k
  induction k with
  | zero =>
    intro s x
    have hunfold : simpleBounds W lwl (0 + 2) s (s + W) =
        [(s, s + W), (s + W, s + W + lwl)] := by
      rw [simpleBounds]
      simp [simpleBounds]
    rw [hunfold]
    constructor
    · rintro ⟨p, hp, h1, h2⟩
      rcases List.mem_cons.mp hp with rfl | hp'
      · simp only at h1 h2
        omega
      · rcases List.mem_cons.mp hp' with rfl | hp''
        · simp only at h1 h2
          omega
        · exact absurd hp'' (List.not_mem_nil p)
    · intro h
      by_cases hx : x < s + W
      · exact ⟨(s, s + W), List.mem_cons_self _ _, by omega, hx⟩
      · refine ⟨(s + W, s + W + lwl), ?_, by omega, by omega⟩
        exact List.mem_cons_of_mem _ (List.mem_cons_self _ _)
  | succ k ih =>
    intro s x
    have hmul : (k + 1 + 1) * W = (k + 1) * W + W := by ring
    constructor
    · rintro ⟨p, hp, h1, h2⟩
      rw [simpleBounds] at hp
      have hm : ¬(k + 1 = 0) := by omega
      rw [if_neg hm] at hp
      rcases List.mem_cons.mp hp with rfl | hp'
      · simp only at h1 h2
        omega
      · have harg : s + W + W = (s + W) + W := rfl
        rw [harg] at hp'
        have := (ih (s + W) x).mp ⟨p, hp', h1, h2⟩
        omega
    · intro h
      rw [simpleBounds]
      have hm : ¬(k + 1 = 0) := by omega
      rw [if_neg hm]
      by_cases hx : x < s + W
      · exact ⟨(s, s + W), List.mem_cons_self _ _, by omega, hx⟩
      · have harg : s + W + W = (s + W) + W := rfl
        rw [harg]
        obtain ⟨p, hp, h1, h2⟩ := (ih (s + W) x).mpr (by omega)
        exact ⟨p, List.mem_cons_of_mem _ hp, h1, h2⟩

/-! Lemmas about the transcribed window loop. -/

/-- If the fetch of the current window contains a retained record with no
inferred query length, the loop (and hence the scan) aborts. -/
lemma windowLoop_fail (samfile : AlignmentFile) (chrom : String)
    (W lwl nw k s e wid : Nat)
    (h : totalReadLength (samfile.fetch chrom s e) = none) :
    windowLoop samfile chrom W lwl nw (k + 1) s e wid = none := by
  rw [windowLoop, h]

/-- On success, the `(start, stop)` pairs of the produced rows are exactly
the derived boundary description, provided the remaining-iteration count
and the window counter add up to the total window count (as they do at the
entry call). -/
lemma windowLoop_bounds (samfile : AlignmentFile) (chrom : String)
    (W lwl nw : Nat) :
    ∀ k s e wid rows, wid + k = nw →
      windowLoop samfile chrom W lwl nw k s e wid = some rows →
      rows.map (fun r => (r.start, r.stop)) = simpleBounds W lwl k s e := by
  intro k
  induction k with
  | zero =>
    intro s e wid rows _ h
    have hrows : rows = [] := (Option.some.inj h).symm
    subst hrows
    rfl
  | succ k ih =>
    intro s e wid rows hinv h
    rw [windowLoop] at h
    cases h1 : totalReadLength (samfile.fetch chrom s e) with
    | none =>
      rw [h1] at h
      exact absurd h (by simp)
    | some total =>
      rw [h1] at h
      cases h2 : windowLoop samfile chrom W lwl nw k (s + W)
          (e + (if wid + 1 = nw - 1 then lwl else W)) (wid + 1) with
      | none =>
        rw [h2] at h
        exact absurd h (by simp)
      | some rest =>
        rw [h2] at h
        simp only [Option.some.injEq] at h
        subst h
        rw [List.map_cons]
        rcases k with _ | k'
        · have hrest : rest = [] :=
            (Option.some.inj h2).symm
          subst hrest
          rfl
        · have hδ : (if wid + 1 = nw - 1 then lwl else W) =
              (if k' = 0 then lwl else W) := by
            by_cases hk : k' = 0
            · rw [if_pos hk, if_pos (by omega)]
            · rw [if_neg hk, if_neg (by omega)]
          have ihres := ih (s + W) (e + (if wid + 1 = nw - 1 then lwl else W))
            (wid + 1) rest (by omega) h2
          rw [simpleBounds]
          rw [ihres, hδ]

/-- On success every produced row carries the chromosome name and the
per-window depth and mapq aggregates of its own fetch. -/
lemma windowLoop_rows (samfile : AlignmentFile) (chrom : String)
    (W lwl nw : Nat) :
    ∀ k s e wid rows,
      windowLoop samfile chrom W lwl nw k s e wid = some rows →
      ∀ r ∈ rows, r.chrom = chrom ∧
        ∃ t, totalReadLength (samfile.fetch chrom r.start r.stop) = some t ∧
          r.depth = (t : ℚ) / (W : ℚ) ∧
          r.mapq = mapqMean (mapqsOf (samfile.fetch chrom r.start r.stop)) := by
  intro k
  induction k with
  | zero =>
    intro s e wid rows h
    have hrows : rows = [] := (Option.some.inj h).symm
    subst hrows
    intro r hr
    exact absurd hr (List.not_mem_nil r)
  | succ k ih =>
    intro s e wid rows h
    rw [windowLoop] at h
    cases h1 : totalReadLength (samfile.fetch chrom s e) with
    | none =>
      rw [h1] at h
      exact absurd h (by simp)
    | some total =>
      rw [h1] at h
      cases h2 : windowLoop samfile chrom W lwl nw k (s + W)
          (e + (if wid + 1 = nw - 1 then lwl else W)) (wid + 1) with
      | none =>
        rw [h2] at h
        exact absurd h (by simp)
      | some rest =>
        rw [h2] at h
        simp only [Option.some.injEq] at h
        subst h
        intro r hr
        rcases List.mem_cons.mp hr with rfl | hr'
        · exact ⟨rfl, ⟨total, h1, rfl, rfl⟩⟩
        · exact ih (s + W) (e + (if wid + 1 = nw - 1 then lwl else W))
            (wid + 1) rest h2 r hr'

/-- With an always-empty fetch the loop succeeds, producing one row per
iteration, each with zero depth and undefined mapq. -/
lemma windowLoop_empty (samfile : AlignmentFile) (chrom : String)
    (W lwl nw : Nat) (hf : ∀ c a b, samfile.fetch c a b = []) :
    ∀ k s e wid, ∃ rows,
      windowLoop samfile chrom W lwl nw k s e wid = some rows ∧
      rows.length = k ∧ ∀ r ∈ rows, r.depth = 0 ∧ r.mapq = none := by
  intro k
  induction k with
  | zero =>
    intro s e wid
    exact ⟨[], rfl, rfl, fun r hr => absurd hr (List.not_mem_nil r)⟩
  | succ k ih =>
    intro s e wid
    obtain ⟨rest, hrest, hlen, hprop⟩ :=
      ih (s + W) (e + (if wid + 1 = nw - 1 then lwl else W)) (wid + 1)
    refine ⟨{ chrom := chrom, start := s, stop := e,
              depth := ((0 : Nat) : ℚ) / (W : ℚ),
              mapq := mapqMean (mapqsOf []) } :: rest, ?_, ?_, ?_⟩
    · rw [windowLoop, hf chrom s e]
      have h0 : totalReadLength ([] : List AlignmentRecord) = some 0 := rfl
      rw [h0, hrest]
    · rw [List.length_cons, hlen]
    · intro r hr
      rcases List.mem_cons.mp hr with rfl | hr'
      · constructor
        · show ((0 : Nat) : ℚ) / (W : ℚ) = 0
          norm_num
        · rfl
      · exact hprop r hr'

/-! Lemmas about the whole traversal. -/

/-- Core correspondence: a successful scan relates its rows to the derived
boundary description and to the per-window aggregates. -/
lemma traverse_spec (samfile : AlignmentFile) (chrom : String)
    (W L : Nat) (rows : List WindowRow)
    (hL : get_length samfile chrom = some L)
    (h : traverse_bam_fetch samfile chrom W = some rows) :
    rows.map (fun r => (r.start, r.stop)) =
      simpleBounds W (last_window_len L W) (num_windows L W) 0 W ∧
    ∀ r ∈ rows, r.chrom = chrom ∧
      ∃ t, totalReadLength (samfile.fetch chrom r.start r.stop) = some t ∧
        r.depth = (t : ℚ) / (W : ℚ) ∧
        r.mapq = mapqMean (mapqsOf (samfile.fetch chrom r.start r.stop)) := by
  unfold traverse_bam_fetch at h
  rw [hL] at h
  exact ⟨windowLoop_bounds samfile chrom W (last_window_len L W)
      (num_windows L W) (num_windows L W) 0 W 0 rows (by omega) h,
    windowLoop_rows samfile chrom W (last_window_len L W)
      (num_windows L W) (num_windows L W) 0 W 0 rows h⟩

/-- A successful scan yields one row per window. -/
lemma traverse_length (samfile : AlignmentFile) (chrom : String)
    (W L : Nat) (rows : List WindowRow)
    (hL : get_length samfile chrom = some L)
    (h : traverse_bam_fetch samfile chrom W = some rows) :
    rows.length = num_windows L W := by
  have hb := (traverse_spec samfile chrom W L rows hL h).1
  have hlen := congrArg List.length hb
  rw [List.length_map, simpleBounds_length] at hlen
  exact hlen

/-- One window in, the last window length is the nominal window size. -/
lemma last_window_len_of_one (L W : Nat) (h : num_windows L W = 1) :
    last_window_len L W = W := by
  rw [last_window_len, h, Nat.mod_one]
  rfl

/-- The last window length is positive when the window size is. -/
lemma last_window_len_pos (L W : Nat) (hW : 0 < W) :
    0 < last_window_len L W := by
  rw [last_window_len]
  by_cases h : L % num_windows L W = 0
  · rw [if_pos h]
    exact hW
  · rw [if_neg h]
    omega

/-- Boundary facts for each row of a successful scan: its start is its
window index times the window size; its stop is one more window-size step
for every window but the last, and the start plus the last window length
for the last. -/
lemma traverse_row_bounds (samfile : AlignmentFile) (chrom : String)
    (W L : Nat) (rows : List WindowRow)
    (hL : get_length samfile chrom = some L)
    (h : traverse_bam_fetch samfile chrom W = some rows)
    (j : Nat) (r : WindowRow) (hr : rows.get? j = some r) :
    j < num_windows L W ∧ r.start = j * W ∧
    (j + 1 < num_windows L W → r.stop = (j + 1) * W) ∧
    (j + 1 = num_windows L W → r.stop = j * W + last_window_len L W) := by
  have hb := (traverse_spec samfile chrom W L rows hL h).1
  have hlen := traverse_length samfile chrom W L rows hL h
  have hj : j < num_windows L W := by
    obtain ⟨hlt, -⟩ := List.get?_eq_some.mp hr
    omega
  have hpair : (simpleBounds W (last_window_len L W) (num_windows L W) 0 W).get? j
      = some (r.start, r.stop) := by
    rw [← hb, List.get?_map, hr]
    rfl
  refine ⟨hj, ?_, ?_, ?_⟩
  · have hfst := simpleBounds_get_fst W (last_window_len L W)
      (num_windows L W) 0 W j hj
    rw [hpair] at hfst
    have hf : r.start = 0 + j * W := Option.some.inj hfst
    omega
  · intro hjlt
    have hsnd := simpleBounds_get_snd W (last_window_len L W)
      (num_windows L W) 0 W j hjlt
    rw [hpair] at hsnd
    have hs : r.stop = W + j * W := Option.some.inj hsnd
    rw [hs]
    ring
  · intro hjeq
    rcases hnw : num_windows L W with _ | _ | m
    · omega
    · have hj0 : j = 0 := by omega
      subst hj0
      have h1 : last_window_len L W = W := last_window_len_of_one L W hnw
      rw [hnw] at hpair
      have : simpleBounds W (last_window_len L W) 1 0 W = [(0, W)] := rfl
      rw [this] at hpair
      have hr2 : ((0 : Nat), W) = (r.start, r.stop) := Option.some.inj hpair
      have hstop : r.stop = W := by
        have := congrArg Prod.snd hr2
        simpa using this.symm
      rw [hstop, h1]
      omega
    · have hjm : j = m + 1 := by omega
      subst hjm
      have hlast := simpleBounds_last_snd W (last_window_len L W) m 0 W
      rw [← hnw] at hlast
      rw [hpair] at hlast
      have hs : r.stop = W + m * W + last_window_len L W :=
        Option.some.inj hlast
      rw [hs]
      ring

/-- Contiguity of a successful scan: each row's stop is the next row's
start. -/
lemma traverse_contiguous (samfile : AlignmentFile) (chrom : String)
    (W L : Nat) (rows : List WindowRow)
    (hL : get_length samfile chrom = some L)
    (h : traverse_bam_fetch samfile chrom W = some rows)
    (j : Nat) (a b : WindowRow)
    (ha : rows.get? j = some a) (hb : rows.get? (j + 1) = some b) :
    a.stop = b.start := by
  have haa := traverse_row_bounds samfile chrom W L rows hL h j a ha
  have hbb := traverse_row_bounds samfile chrom W L rows hL h (j + 1) b hb
  have h1 : a.stop = (j + 1) * W := haa.2.2.1 hbb.1
  have h2 : b.start = (j + 1) * W := hbb.2.1
  rw [h1, h2]

/-- Rows of a successful scan do not overlap and their starts ascend. -/
lemma traverse_nonoverlap (samfile : AlignmentFile) (chrom : String)
    (W L : Nat) (rows : List WindowRow) (hW : 0 < W)
    (hL : get_length samfile chrom = some L)
    (h : traverse_bam_fetch samfile chrom W = some rows)
    (i j : Nat) (a b : WindowRow) (hij : i < j)
    (ha : rows.get? i = some a) (hb : rows.get? j = some b) :
    a.stop ≤ b.start ∧ a.start < b.start := by
  have haa := traverse_row_bounds samfile chrom W L rows hL h i a ha
  have hbb := traverse_row_bounds samfile chrom W L rows hL h j b hb
  have h1 : a.stop = (i + 1) * W := haa.2.2.1 (by omega)
  have h2 : b.start = j * W := hbb.2.1
  have h3 : a.start = i * W := haa.2.1
  constructor
  · rw [h1, h2]
    exact Nat.mul_le_mul_right W (by omega)
  · rw [h3, h2]
    exact Nat.mul_lt_mul_of_pos_right hij hW

/-- Total of the window spans of a successful scan. -/
lemma traverse_sum_spans (samfile : AlignmentFile) (chrom : String)
    (W L : Nat) (rows : List WindowRow) (hW : 0 < W)
    (hL : get_length samfile chrom = some L)
    (h : traverse_bam_fetch samfile chrom W = some rows) :
    (rows.map fun r => r.stop - r.start).sum =
      (num_windows L W - 1) * W + last_window_len L W := by
  have hb := (traverse_spec samfile chrom W L rows hL h).1
  have hmap : (rows.map fun r => r.stop - r.start) =
      ((rows.map fun r => (r.start, r.stop)).map
        fun p : Nat × Nat => p.2 - p.1) := by
    rw [List.map_map]
    rfl
  rw [hmap, hb]
  rcases hnw : num_windows L W with _ | _ | m
  · exact absurd hnw (Nat.succ_ne_zero (L / W))
  · rw [last_window_len_of_one L W hnw]
    simp [simpleBounds]
  · have h0 := simpleBounds_sum_spans W (last_window_len L W) m 0
    simp only [Nat.zero_add] at h0
    rw [h0]
    rfl

/-- Coverage of a successful scan: a position is inside some row exactly
when it is below the final stop. -/
lemma traverse_cover (samfile : AlignmentFile) (chrom : String)
    (W L : Nat) (rows : List WindowRow) (hW : 0 < W)
    (hL : get_length samfile chrom = some L)
    (h : traverse_bam_fetch samfile chrom W = some rows) (x : Nat) :
    (∃ r ∈ rows, r.start ≤ x ∧ x < r.stop) ↔
      x < (num_windows L W - 1) * W + last_window_len L W := by
  have hb := (traverse_spec samfile chrom W L rows hL h).1
  have hmem : (∃ r ∈ rows, r.start ≤ x ∧ x < r.stop) ↔
      (∃ p ∈ rows.map (fun r => (r.start, r.stop)), p.1 ≤ x ∧ x < p.2) := by
    constructor
    · rintro ⟨r, hr, h1, h2⟩
      exact ⟨(r.start, r.stop), List.mem_map_of_mem _ hr, h1, h2⟩
    · rintro ⟨p, hp, h1, h2⟩
      obtain ⟨r, hr, rfl⟩ := List.mem_map.mp hp
      exact ⟨r, hr, h1, h2⟩
  rw [hmem, hb]
  have hl : 0 < last_window_len L W := last_window_len_pos L W hW
  rcases hnw : num_windows L W with _ | _ | m
  · exact absurd hnw (Nat.succ_ne_zero (L / W))
  · rw [last_window_len_of_one L W hnw]
    rw [show simpleBounds W W (0 + 1) 0 W = [(0, W)] from rfl]
    constructor
    · rintro ⟨p, hp, h1, h2⟩
      rcases List.mem_cons.mp hp with rfl | hp'
      · simp only at h1 h2
        omega
      · exact absurd hp' (List.not_mem_nil p)
    · intro hx
      exact ⟨(0, W), List.mem_cons_self _ _, by omega, by omega⟩
  · have hc := simpleBounds_cover W (last_window_len L W) hl m 0 x
    simp only [Nat.zero_add] at hc
    rw [hc]
    have h21 : m + 2 - 1 = m + 1 := rfl
    rw [h21]
    simp

/-! Lemmas about the dictionary lookup of `get_length`. -/

/-- Lookup misses when no pair carries the key. -/
lemma dictLookup_eq_none (c : String) :
    ∀ ps : List (String × Nat), (∀ p ∈ ps, p.1 ≠ c) →
      dictLookup ps c = none := by
  intro ps
  induction ps with
  | nil => intro _; rfl
  | cons p rest ih =>
    intro hall
    obtain ⟨k, v⟩ := p
    rw [dictLookup, ih (fun q hq => hall q (List.mem_cons_of_mem _ hq))]
    rw [if_neg (hall (k, v) (List.mem_cons_self _ _))]

/-- Lookup hits when the keys are distinct and the pair is present. -/
lemma dictLookup_eq_some (c : String) (v : Nat) :
    ∀ ps : List (String × Nat), (ps.map Prod.fst).Nodup →
      (c, v) ∈ ps → dictLookup ps c = some v := by
  intro ps
  induction ps with
  | nil =>
    intro _ hmem
    exact absurd hmem (List.not_mem_nil _)
  | cons p rest ih =>
    intro hnd hmem
    obtain ⟨k, w⟩ := p
    rw [List.map_cons, List.nodup_cons] at hnd
    rcases List.mem_cons.mp hmem with heq | hmem'
    · have hk : k = c := (congrArg Prod.fst heq).symm
      have hw : w = v := (congrArg Prod.snd heq).symm
      subst hk
      subst hw
      have hnone : dictLookup rest k = none := by
        apply dictLookup_eq_none
        intro q hq hqk
        have hmem : k ∈ rest.map Prod.fst :=
          List.mem_map.mpr ⟨q, hq, hqk⟩
        exact hnd.1 hmem
      rw [dictLookup, hnone, if_pos rfl]
    · rw [dictLookup, ih hnd.2 hmem']

/-! Fixtures for the concrete instances used by the claim witnesses. -/

/-- Fixture: a reference name absent from `exampleSource`. -/
def chr1 : String := "chr1"

/-- Fixture: a short reference name. -/
def chrC : String := "c"

/-- Fixture: a source with one reference of length 5 and no reads. -/
def smallSource : AlignmentFile :=
  { references := [chrC], lengths := [5], fetch := fun _ _ _ => [] }

/-- Fixture: the single row of scanning `smallSource` at window size 10. -/
def smallRows : List WindowRow :=
  [ { chrom := chrC, start := 0, stop := 10,
      depth := ((0 : Nat) : ℚ) / ((10 : Nat) : ℚ), mapq := none } ]

/-- Fixture: a primary read of inferred length 7 and mapping quality 30. -/
def readA : AlignmentRecord :=
  { is_secondary := false, is_supplementary := false,
    infer_query_length := some 7, mapping_quality := 30 }

/-- Fixture: a source whose every fetch yields two copies of `readA`. -/
def readsSource : AlignmentFile :=
  { references := [chrC], lengths := [5], fetch := fun _ _ _ => [readA, readA] }

/-- Fixture: the single row of scanning `readsSource` at window size 10,
with the aggregate fields written as the terms the loop builds. -/
def readsRow : WindowRow :=
  { chrom := chrC, start := 0, stop := 10,
    depth := ((14 : Nat) : ℚ) / ((10 : Nat) : ℚ),
    mapq := mapqMean (mapqsOf (readsSource.fetch chrC 0 10)) }

/-- Fixture: the row list of scanning `readsSource` at window size 10. -/
def readsRows : List WindowRow := [readsRow]

/-- Fixture: a secondary read. -/
def suppRead1 : AlignmentRecord :=
  { is_secondary := true, is_supplementary := false,
    infer_query_length := some 7, mapping_quality := 30 }

/-- Fixture: a supplementary read. -/
def suppRead2 : AlignmentRecord :=
  { is_secondary := false, is_supplementary := true,
    infer_query_length := some 7, mapping_quality := 30 }

/-- Fixture: a source whose every fetch yields only secondary or
supplementary reads. -/
def suppSource : AlignmentFile :=
  { references := [chrC], lengths := [5],
    fetch := fun _ _ _ => [suppRead1, suppRead2, suppRead1] }

/-- Fixture: the single row of scanning `suppSource` at window size 10. -/
def suppRow : WindowRow :=
  { chrom := chrC, start := 0, stop := 10,
    depth := ((0 : Nat) : ℚ) / ((10 : Nat) : ℚ), mapq := none }

/-- Fixture: the row list of scanning `suppSource` at window size 10. -/
def suppRows : List WindowRow := [suppRow]

/-- Fixture: a primary read with no inferred query length. -/
def noneRead : AlignmentRecord :=
  { is_secondary := false, is_supplementary := false,
    infer_query_length := none, mapping_quality := 30 }

/-- Fixture: a source whose every fetch yields `noneRead`. -/
def noneSource : AlignmentFile :=
  { references := [chrC], lengths := [5], fetch := fun _ _ _ => [noneRead] }

/-- Fixture: the last row of `exampleRows`. -/
def exampleLastRow : WindowRow :=
  { chrom := chrX, start := 900, stop := 1200,
    depth := ((0 : Nat) : ℚ) / ((300 : Nat) : ℚ), mapq := none }

example : traverse_bam_fetch smallSource chrC 10 = some smallRows := by rfl

example : traverse_bam_fetch readsSource chrC 10 = some readsRows := by rfl

example : traverse_bam_fetch suppSource chrC 10 = some suppRows := by rfl

/-! Claim theorems. -/

/-- Claim C1, counterexample: at the spec's own example (chromosome length
1000, window size 300) the sum of the window spans is 1200, not 1000, and
the last window's stop is 1200, not 1000 — so the claimed invariant fails
on the code. -/
theorem claim_C1_counterexample :
    get_length exampleSource chrX = some 1000 ∧
    traverse_bam_fetch exampleSource chrX 300 = some exampleRows ∧
    (exampleRows.map fun r => r.stop - r.start).sum ≠ 1000 ∧
    exampleRows.getLast?.map WindowRow.stop ≠ some 1000 :=
  ⟨rfl, rfl, by decide, by decide⟩

/-- Claim C1, amended: for every chromosome of length L and window size
W > 0 the windows produced by the scan are contiguous and non-overlapping,
and the sum of the window spans equals the last window's stop, which is
`(L / W) * W + last_window_len L W` — in general different from L. -/
theorem claim_C1_amended (samfile : AlignmentFile) (chrom : String)
    (W L : Nat) (rows : List WindowRow) (hW : 0 < W)
    (hL : get_length samfile chrom = some L)
    (h : traverse_bam_fetch samfile chrom W = some rows) :
    (∀ j a b, rows.get? j = some a → rows.get? (j + 1) = some b →
      a.stop = b.start) ∧
    (∀ i j a b, i < j → rows.get? i = some a → rows.get? j = some b →
      a.stop ≤ b.start) ∧
    ∀ r, rows.getLast? = some r →
      (rows.map fun x => x.stop - x.start).sum = r.stop ∧
      r.stop = (L / W) * W + last_window_len L W := by
  refine ⟨?_, ?_, ?_⟩
  · exact fun j a b => traverse_contiguous samfile chrom W L rows hL h j a b
  · exact fun i j a b hij ha hb =>
      (traverse_nonoverlap samfile chrom W L rows hW hL h i j a b hij ha hb).1
  · intro r hr
    rw [List.getLast?_eq_get?] at hr
    have hlen := traverse_length samfile chrom W L rows hL h
    have hb := traverse_row_bounds samfile chrom W L rows hL h
      (rows.length - 1) r hr
    have hnw1 : 1 ≤ num_windows L W := Nat.succ_le_succ (Nat.zero_le (L / W))
    have hstop : r.stop = (rows.length - 1) * W + last_window_len L W :=
      hb.2.2.2 (by omega)
    have hsum := traverse_sum_spans samfile chrom W L rows hW hL h
    constructor
    · rw [hsum, hstop, hlen]
    · rw [hstop, hlen]
      have hq : num_windows L W - 1 = L / W := rfl
      rw [hq]

/-- Witness for claim C1 (amended) at the example fixture. -/
theorem claim_C1_witness :
    (∀ j a b, exampleRows.get? j = some a →
      exampleRows.get? (j + 1) = some b → a.stop = b.start) ∧
    (∀ i j a b, i < j → exampleRows.get? i = some a →
      exampleRows.get? j = some b → a.stop ≤ b.start) ∧
    ∀ r, exampleRows.getLast? = some r →
      (exampleRows.map fun x => x.stop - x.start).sum = r.stop ∧
      r.stop = (1000 / 300) * 300 + last_window_len 1000 300 :=
  claim_C1_amended exampleSource chrX 300 1000 exampleRows (by omega) rfl rfl

/-- Claim C2: the final window's span is `W` when `L % N == 0` and
`L % N` otherwise (with `N = L // W + 1`), and the spec's end-to-end
example produces exactly the four windows `[0,300), [300,600), [600,900),
[900,1200)`. -/
theorem claim_C2 (samfile : AlignmentFile) (chrom : String) (W L : Nat)
    (rows : List WindowRow) (r : WindowRow) (hW : 0 < W)
    (hL : get_length samfile chrom = some L)
    (h : traverse_bam_fetch samfile chrom W = some rows)
    (hr : rows.getLast? = some r) :
    (r.stop - r.start =
      if L % (L / W + 1) = 0 then W else L % (L / W + 1)) ∧
    traverse_bam_fetch exampleSource chrX 300 = some exampleRows ∧
    exampleRows.map (fun x => (x.start, x.stop)) =
      [(0, 300), (300, 600), (600, 900), (900, 1200)] ∧
    exampleRows.length = 4 := by
  refine ⟨?_, rfl, by decide, rfl⟩
  rw [List.getLast?_eq_get?] at hr
  have hlen := traverse_length samfile chrom W L rows hL h
  have hb := traverse_row_bounds samfile chrom W L rows hL h
    (rows.length - 1) r hr
  have hnw1 : 1 ≤ num_windows L W := Nat.succ_le_succ (Nat.zero_le (L / W))
  have hstart : r.start = (rows.length - 1) * W := hb.2.1
  have hstop : r.stop = (rows.length - 1) * W + last_window_len L W :=
    hb.2.2.2 (by omega)
  have hlwl : last_window_len L W =
      if L % (L / W + 1) = 0 then W else L % (L / W + 1) := rfl
  rw [hstop, hstart, ← hlwl]
  omega

/-- Witness for claim C2 at the example fixture. -/
theorem claim_C2_witness :
    (exampleLastRow.stop - exampleLastRow.start =
      if 1000 % (1000 / 300 + 1) = 0 then 300 else 1000 % (1000 / 300 + 1)) ∧
    traverse_bam_fetch exampleSource chrX 300 = some exampleRows ∧
    exampleRows.map (fun x => (x.start, x.stop)) =
      [(0, 300), (300, 600), (600, 900), (900, 1200)] ∧
    exampleRows.length = 4 :=
  claim_C2 exampleSource chrX 300 1000 exampleRows exampleLastRow
    (by omega) rfl rfl rfl

/-- Claim C3: a successful scan produces exactly `L // W + 1` windows;
their starts are `j * W` (so the first is 0 and they ascend), consecutive
windows are contiguous, distinct windows do not overlap, and the windows
cover exactly the positions below the sum of the spans. -/
theorem claim_C3 (samfile : AlignmentFile) (chrom : String) (W L : Nat)
    (rows : List WindowRow) (hW : 0 < W)
    (hL : get_length samfile chrom = some L)
    (h : traverse_bam_fetch samfile chrom W = some rows) :
    rows.length = L / W + 1 ∧
    (∀ j a, rows.get? j = some a → a.start = j * W) ∧
    (∀ j a b, rows.get? j = some a → rows.get? (j + 1) = some b →
      a.stop = b.start) ∧
    (∀ i j a b, i < j → rows.get? i = some a → rows.get? j = some b →
      a.stop ≤ b.start ∧ a.start < b.start) ∧
    ∀ x, (∃ r ∈ rows, r.start ≤ x ∧ x < r.stop) ↔
      x < (rows.map fun r => r.stop - r.start).sum := by
  refine ⟨?_, ?_, ?_, ?_, ?_⟩
  · rw [traverse_length samfile chrom W L rows hL h]
    rfl
  · exact fun j a ha =>
      (traverse_row_bounds samfile chrom W L rows hL h j a ha).2.1
  · exact fun j a b => traverse_contiguous samfile chrom W L rows hL h j a b
  · exact fun i j a b =>
      traverse_nonoverlap samfile chrom W L rows hW hL h i j a b
  · intro x
    rw [traverse_sum_spans samfile chrom W L rows hW hL h]
    exact traverse_cover samfile chrom W L rows hW hL h x

/-- Witness for claim C3 at the example fixture. -/
theorem claim_C3_witness :
    exampleRows.length = 1000 / 300 + 1 ∧
    (∀ j a, exampleRows.get? j = some a → a.start = j * 300) ∧
    (∀ j a b, exampleRows.get? j = some a →
      exampleRows.get? (j + 1) = some b → a.stop = b.start) ∧
    (∀ i j a b, i < j → exampleRows.get? i = some a →
      exampleRows.get? j = some b → a.stop ≤ b.start ∧ a.start < b.start) ∧
    ∀ x, (∃ r ∈ exampleRows, r.start ≤ x ∧ x < r.stop) ↔
      x < (exampleRows.map fun r => r.stop - r.start).sum :=
  claim_C3 exampleSource chrX 300 1000 exampleRows (by omega) rfl rfl

/-- Claim C4: every row's depth is the sum of the inferred query lengths
of the retained records of its own fetch divided by the nominal window
size (never the actual span); in particular, for a window whose retained
records are `k > 0` reads of mapping quality `Q` and inferred length `R`,
the depth is `(k * R) / W` and the mapq is `Q`. -/
theorem claim_C4 (samfile : AlignmentFile) (chrom : String) (W L : Nat)
    (rows : List WindowRow) (hW : 0 < W)
    (hL : get_length samfile chrom = some L)
    (h : traverse_bam_fetch samfile chrom W = some rows)
    (j : Nat) (r : WindowRow) (hr : rows.get? j = some r) :
    r.depth = ((((retainedReads (samfile.fetch chrom r.start r.stop)).map
        fun q => q.infer_query_length.getD 0).sum : Nat) : ℚ) / (W : ℚ) ∧
    ∀ k Q R : Nat, 0 < k →
      (retainedReads (samfile.fetch chrom r.start r.stop)).length = k →
      (∀ q ∈ retainedReads (samfile.fetch chrom r.start r.stop),
        q.mapping_quality = Q ∧ q.infer_query_length = some R) →
      r.depth = ((k * R : Nat) : ℚ) / (W : ℚ) ∧
      r.mapq = some ((Q : Nat) : ℚ) := by
  obtain ⟨-, t, ht, hdepth, hmapq⟩ :=
    (traverse_spec samfile chrom W L rows hL h).2 r (List.get?_mem hr)
  have hts := totalReadLength_eq_sum _ t ht
  constructor
  · rw [hdepth, hts]
  · intro k Q R hk hlen hQ
    constructor
    · rw [hdepth, hts]
      have hsum : ((retainedReads (samfile.fetch chrom r.start r.stop)).map
          fun q => q.infer_query_length.getD 0).sum = k * R := by
        rw [sum_map_const_nat _ R _ (fun q hq => by rw [(hQ q hq).2]; rfl),
          hlen]
      rw [hsum]
    · rw [hmapq, mapqsOf_eq_map]
      have hne : (retainedReads (samfile.fetch chrom r.start r.stop)).map
          AlignmentRecord.mapping_quality ≠ [] := by
        intro hc
        have hlc := congrArg List.length hc
        rw [List.length_map, hlen] at hlc
        simp at hlc
        omega
      exact mapqMean_const _ Q (fun x hx => by
        obtain ⟨q, hq, rfl⟩ := List.mem_map.mp hx
        exact (hQ q hq).1) hne

/-- Witness for claim C4 at the two-read fixture. -/
theorem claim_C4_witness :
    readsRow.depth = ((2 * 7 : Nat) : ℚ) / ((10 : Nat) : ℚ) ∧
    readsRow.mapq = some ((30 : Nat) : ℚ) :=
  (claim_C4 readsSource chrC 10 5 readsRows (by omega) rfl rfl 0
    readsRow rfl).2 2 30 7 (by omega) (by decide) (by decide)

/-- Claim C5: a window whose fetch contains only secondary or
supplementary records (any number of them) has depth 0 and undefined
mapq — excluded records count for neither aggregate. -/
theorem claim_C5 (samfile : AlignmentFile) (chrom : String) (W L : Nat)
    (rows : List WindowRow) (hW : 0 < W)
    (hL : get_length samfile chrom = some L)
    (h : traverse_bam_fetch samfile chrom W = some rows)
    (j : Nat) (r : WindowRow) (hr : rows.get? j = some r)
    (hexcl : ∀ q ∈ samfile.fetch chrom r.start r.stop,
      q.is_secondary = true ∨ q.is_supplementary = true) :
    r.depth = 0 ∧ r.mapq = none := by
  have hnil : retainedReads (samfile.fetch chrom r.start r.stop) = [] := by
    apply List.filter_eq_nil.mpr
    intro a ha
    rcases hexcl a ha with hs | hs <;> simp [hs]
  obtain ⟨-, t, ht, hdepth, hmapq⟩ :=
    (traverse_spec samfile chrom W L rows hL h).2 r (List.get?_mem hr)
  have h0 : totalReadLength (samfile.fetch chrom r.start r.stop) = some 0 :=
    totalReadLength_of_no_retained _ hnil
  have ht0 : t = 0 := by
    rw [ht] at h0
    exact Option.some.inj h0
  constructor
  · rw [hdepth, ht0]
    norm_num
  · rw [hmapq, mapqsOf_eq_map, hnil]
    rfl

/-- Witness for claim C5 at the excluded-reads fixture. -/
theorem claim_C5_witness : suppRow.depth = 0 ∧ suppRow.mapq = none :=
  claim_C5 suppSource chrC 10 5 suppRows (by omega) rfl rfl 0 suppRow rfl
    (by decide)

/-- Claim C6: with a source yielding no reads anywhere, the scan still
succeeds, produces its full complement of `L // W + 1` rows, and every
row has depth 0 and undefined (NaN) mapq. -/
theorem claim_C6 (samfile : AlignmentFile) (chrom : String) (W L : Nat)
    (hW : 0 < W) (hL : get_length samfile chrom = some L)
    (hempty : ∀ c a b, samfile.fetch c a b = []) :
    ∃ rows, traverse_bam_fetch samfile chrom W = some rows ∧
      rows.length = L / W + 1 ∧
      ∀ r ∈ rows, r.depth = 0 ∧ r.mapq = none := by
  obtain ⟨rows, hwl, hlen, hprop⟩ := windowLoop_empty samfile chrom W
    (last_window_len L W) (num_windows L W) hempty (num_windows L W) 0 W 0
  refine ⟨rows, ?_, ?_, hprop⟩
  · unfold traverse_bam_fetch
    rw [hL]
    exact hwl
  · rw [hlen]
    rfl

/-- Witness for claim C6 at the example fixture. -/
theorem claim_C6_witness :
    ∃ rows, traverse_bam_fetch exampleSource chrX 300 = some rows ∧
      rows.length = 1000 / 300 + 1 ∧
      ∀ r ∈ rows, r.depth = 0 ∧ r.mapq = none :=
  claim_C6 exampleSource chrX 300 1000 (by omega) rfl (fun _ _ _ => rfl)

/-- Claim C7: a chromosome name absent from the declared references makes
the length lookup and the whole scan fail with no result; a name present
among (distinct) declared references resolves to its recorded length. -/
theorem claim_C7 (samfile : AlignmentFile) (chrom : String) (W : Nat) :
    (chrom ∉ samfile.references →
      get_length samfile chrom = none ∧
      traverse_bam_fetch samfile chrom W = none) ∧
    ∀ L : Nat, samfile.references.Nodup →
      samfile.references.length ≤ samfile.lengths.length →
      (chrom, L) ∈ samfile.references.zip samfile.lengths →
      get_length samfile chrom = some L := by
  constructor
  · intro habs
    have hnone : get_length samfile chrom = none := by
      unfold get_length
      apply dictLookup_eq_none
      intro p hp hpc
      have hmem : p.1 ∈ samfile.references := by
        obtain ⟨a, b⟩ := p
        exact (List.of_mem_zip hp).1
      rw [hpc] at hmem
      exact habs hmem
    refine ⟨hnone, ?_⟩
    unfold traverse_bam_fetch
    rw [hnone]
  · intro L hnd hlen hmem
    unfold get_length
    apply dictLookup_eq_some
    · rw [List.map_fst_zip _ _ hlen]
      exact hnd
    · exact hmem

/-- Witness for claim C7: the lookup and scan fail for an absent name and
succeed for the declared one. -/
theorem claim_C7_witness :
    (get_length exampleSource chr1 = none ∧
      traverse_bam_fetch exampleSource chr1 300 = none) ∧
    get_length exampleSource chrX = some 1000 :=
  ⟨(claim_C7 exampleSource chr1 300).1 (by decide),
   (claim_C7 exampleSource chrX 300).2 1000 (by decide) (by decide)
     (by decide)⟩

/-- Claim C8: the scan is a pure function of the observable source: two
sources with the same references, lengths and fetch behaviour yield
identical tables for every chromosome and window size. -/
theorem claim_C8 (s1 s2 : AlignmentFile) (chrom : String) (W : Nat)
    (h1 : s1.references = s2.references) (h2 : s1.lengths = s2.lengths)
    (h3 : s1.fetch = s2.fetch) :
    traverse_bam_fetch s1 chrom W = traverse_bam_fetch s2 chrom W := by
  obtain ⟨r1, l1, f1⟩ := s1
  obtain ⟨r2, l2, f2⟩ := s2
  have e1 : r1 = r2 := h1
  have e2 : l1 = l2 := h2
  have e3 : f1 = f2 := h3
  subst e1
  subst e2
  subst e3
  rfl

/-- Witness for claim C8 at the example fixture. -/
theorem claim_C8_witness :
    traverse_bam_fetch exampleSource chrX 300 =
      traverse_bam_fetch exampleSource chrX 300 :=
  claim_C8 exampleSource exampleSource chrX 300 rfl rfl rfl

/-- Claim C9: with 0 < L < W the scan produces exactly one window, with
start 0 and stop W, whose stop strictly exceeds the chromosome length. -/
theorem claim_C9 (samfile : AlignmentFile) (chrom : String) (W L : Nat)
    (rows : List WindowRow) (hL0 : 0 < L) (hLW : L < W)
    (hL : get_length samfile chrom = some L)
    (h : traverse_bam_fetch samfile chrom W = some rows) :
    num_windows L W = 1 ∧
    ∃ r, rows = [r] ∧ r.start = 0 ∧ r.stop = W ∧ L < r.stop := by
  have hdiv : L / W = 0 := Nat.div_eq_of_lt hLW
  have hnw : num_windows L W = 1 := by
    unfold num_windows
    omega
  have hlen := traverse_length samfile chrom W L rows hL h
  rw [hnw] at hlen
  rcases rows with _ | ⟨r, rest⟩
  · simp at hlen
  · have hrest : rest = [] := by
      rw [List.length_cons] at hlen
      exact List.length_eq_zero.mp (by omega)
    subst hrest
    have hr : (r :: ([] : List WindowRow)).get? 0 = some r := rfl
    have hb := traverse_row_bounds samfile chrom W L (r :: []) hL h 0 r hr
    have hstart : r.start = 0 := by
      have hs := hb.2.1
      omega
    have hstop : r.stop = W := by
      have h01 : (0 : Nat) + 1 = num_windows L W := by omega
      have hs := hb.2.2.2 h01
      rw [last_window_len_of_one L W hnw] at hs
      omega
    exact ⟨hnw, r, rfl, hstart, hstop, by omega⟩

/-- Witness for claim C9 at the short-chromosome fixture. -/
theorem claim_C9_witness :
    num_windows 5 10 = 1 ∧
    ∃ r, smallRows = [r] ∧ r.start = 0 ∧ r.stop = 10 ∧ 5 < r.stop :=
  claim_C9 smallSource chrC 10 5 smallRows (by omega) (by omega) rfl rfl

/-- Claim C10: a retained record with no inferred query length is never
treated as a zero-length contribution: a successful scan certifies that
every retained record of every processed window had an inferred length,
and a retained length-less record in the first window aborts the whole
scan with no table. -/
theorem claim_C10 (samfile : AlignmentFile) (chrom : String) (W L : Nat) :
    (∀ rows, traverse_bam_fetch samfile chrom W = some rows →
      ∀ r ∈ rows, ∀ q ∈ samfile.fetch chrom r.start r.stop,
        q.is_secondary = false → q.is_supplementary = false →
        q.infer_query_length ≠ none) ∧
    (get_length samfile chrom = some L →
      (∃ q ∈ samfile.fetch chrom 0 W, q.is_secondary = false ∧
        q.is_supplementary = false ∧ q.infer_query_length = none) →
      traverse_bam_fetch samfile chrom W = none) := by
  constructor
  · intro rows h r hrmem q hq hqsec hqsup hqnone
    cases hgl : get_length samfile chrom with
    | none =>
      unfold traverse_bam_fetch at h
      rw [hgl] at h
      exact absurd h (by simp)
    | some L2 =>
      obtain ⟨-, t, ht, -, -⟩ :=
        (traverse_spec samfile chrom W L2 rows hgl h).2 r hrmem
      have hmemret : q ∈ retainedReads (samfile.fetch chrom r.start r.stop) :=
        List.mem_filter.mpr ⟨hq, by simp [hqsec, hqsup]⟩
      have hnone : totalReadLength (samfile.fetch chrom r.start r.stop)
          = none := (totalReadLength_eq_none _).mpr ⟨q, hmemret, hqnone⟩
      rw [ht] at hnone
      exact Option.noConfusion hnone
  · rintro hgl ⟨q, hq, hqsec, hqsup, hqnone⟩
    have hmemret : q ∈ retainedReads (samfile.fetch chrom 0 W) :=
      List.mem_filter.mpr ⟨hq, by simp [hqsec, hqsup]⟩
    have hnone : totalReadLength (samfile.fetch chrom 0 W) = none :=
      (totalReadLength_eq_none _).mpr ⟨q, hmemret, hqnone⟩
    unfold traverse_bam_fetch
    rw [hgl]
    exact windowLoop_fail samfile chrom W (last_window_len L W)
      (num_windows L W) (L / W) 0 W 0 hnone

/-- Witness for claim C10 at the length-less-read fixture. -/
theorem claim_C10_witness : traverse_bam_fetch noneSource chrC 10 = none :=
  (claim_C10 noneSource chrC 10 5).2 rfl
    ⟨noneRead, by decide, rfl, rfl, rfl⟩
